import Mathlib

/-!
# Verification of the Runn MCP server (`mcp_runn_server.py`)

Shallow embedding of the tool layer in `mcp_runn_server.py` and of the
client/report components it imports from `runn_reports.py`.  The file
`runn_reports.py` is not part of this repository's sources, so
`RunnClient.paginate`, `RunnClient.projects_lookup`,
`build_billable_hours_report` and `parse_date` are modelled from the
specification (each such definition says so in its doc comment).  Everything
else is translated directly from `mcp_runn_server.py`.

Conventions:
* Python `Optional[T]` becomes `Option T`; Python strings become `String`.
* Python exceptions become an `Except RunnError _` result.  The spec's error
  taxonomy names are used: the credential failure (a `RuntimeError` in the
  Python source) is `authenticationError`, the paginate/method failure
  (a `ValueError`) is `validationError`.
* Network effects are made explicit: every tool returns the list of upstream
  HTTP calls it performed alongside its result, and upstream responses are
  supplied by a fake-upstream argument.
-/

set_option autoImplicit false

namespace RunnMCP

universe u

variable {α : Type u}

/-- One outbound HTTP call (method and path), recorded in a tool's trace. -/
structure NetCall where
  method : String
  path : String
deriving DecidableEq, Repr

/-- Spec §7 error taxonomy (the members the embedded code can raise).
`authenticationError` is raised by `get_client` (a `RuntimeError` in the
Python source); `validationError` by `runn_request` (a `ValueError`). -/
inductive RunnError where
  | authenticationError
  | validationError (msg : String)
deriving DecidableEq, Repr

/-- The constructed API client: just the resolved bearer token
(`RunnClient(api_key=key)`). -/
structure Client where
  key : String
deriving DecidableEq, Repr

/-- Python's `a or b` on optional strings: `a` when `a` is truthy
(present and non-empty), otherwise `b`.  Embeds
`api_key or os.getenv("RUNN_API_KEY")` (mcp_runn_server.py line 44). -/
def pyOrStr : Option String → Option String → Option String
  | some s, b => if s = "" then b else some s
  | none, b => b

/-- `get_client` (mcp_runn_server.py lines 43-47): resolve the key as
`api_key or os.getenv("RUNN_API_KEY")`, fail when the result is falsy
(`None` or the empty string), else construct the client. -/
def get_client (api_key env : Option String) : Except RunnError Client :=
  match pyOrStr api_key env with
  | some s => if s = "" then .error .authenticationError else .ok ⟨s⟩
  | none => .error .authenticationError

/-! ## Pagination (modelled from the spec)

`RunnClient.paginate` lives in `runn_reports.py`, which is not under `src/`.
-/

/-- Modelled from the spec: missing `RunnClient.paginate` (spec §4.1).
The fake upstream serves a fixed list of pages; an exhausted upstream serves
the empty page.  Each fetch is one `GET` call, recorded in the trace.
Iteration stops when a page has fewer records than `limit` or zero records,
and that final short page's records are still yielded; otherwise the page's
records are yielded and the next page is fetched. -/
def paginatePages (path : String) (limit : Nat) :
    List (List α) → List NetCall × List α
  | [] => ([⟨"GET", path⟩], [])
  | p :: ps =>
    if p.length < limit || p.length == 0 then ([⟨"GET", path⟩], p)
    else
      let r := paginatePages path limit ps
      (⟨"GET", path⟩ :: r.1, p ++ r.2)

/-- Split a record stream into the pages an offset-based upstream serves for
page size `limit`: every page has `limit` records except a final shorter one.
This is the "fake upstream that serves fixed pages" of spec §8. -/
def chunks (limit : Nat) : (data : List α) → List (List α)
  | [] => []
  | x :: xs =>
    if limit = 0 then []
    else (x :: xs).take limit :: chunks limit ((x :: xs).drop limit)
termination_by data => data.length
decreasing_by
  simp only [List.length_drop, List.length_cons]
  omega

/-! ## Report builder (modelled from the spec)

`build_billable_hours_report` and `parse_date` live in `runn_reports.py`,
which is not under `src/`.  Dates are taken here as already-parsed calendar
dates; the ISO-8601 string parser `parse_date` (spec §4.2) is not embedded,
as no claim depends on the text-level parsing.
-/

/-- A timezone-naive calendar date, as parsed from an upstream date string. -/
structure PyDate where
  year : Nat
  month : Nat
  day : Nat
deriving DecidableEq, Repr

/-- Strict calendar-date order (year, then month, then day). -/
def dateLt (a b : PyDate) : Bool :=
  if a.year ≠ b.year then a.year < b.year
  else if a.month ≠ b.month then a.month < b.month
  else a.day < b.day

/-- A raw "actuals" record, as far as the report builder reads it: project
reference, person reference, date, and billable-hours quantity.  A missing or
non-numeric hours field is `none` (it contributes zero, spec §4.2). -/
structure Actual where
  project_id : Int
  person_id : Int
  date : PyDate
  billableHours : Option ℚ
deriving DecidableEq, Repr

/-- Hours contribution of one record: its billable-hours value, zero when
missing or non-numeric (spec §4.2). -/
def hoursOf (a : Actual) : ℚ := a.billableHours.getD 0

/-- Grouping key of the report: `(project_id, person_id, year-month)`
(spec §4.2). -/
structure GroupKey where
  project_id : Int
  person_id : Int
  year : Nat
  month : Nat
deriving DecidableEq, Repr

/-- The grouping key of one actuals record: date truncated to year-month. -/
def keyOf (a : Actual) : GroupKey :=
  ⟨a.project_id, a.person_id, a.date.year, a.date.month⟩

/-- Zero-pad a month number to two digits. -/
def pad2 (n : Nat) : String :=
  if n < 10 then "0" ++ toString n else toString n

/-- The `"YYYY-MM"` month label of a Billable-Hours Row (spec §3). -/
def monthStr (year month : Nat) : String :=
  toString year ++ "-" ++ pad2 month

/-- Modelled from the spec: the date-window filter of the missing
`build_billable_hours_report` (spec §4.2).  A record is kept unless it is
strictly before `start` or strictly after `stop`. -/
def inWindow (start stop : Option PyDate) (d : PyDate) : Bool :=
  (match start with
   | none => true
   | some s => !dateLt d s) &&
  (match stop with
   | none => true
   | some e => !dateLt e d)

/-- Add `h` hours under key `k` to the running totals: update the existing
entry for `k` when there is one, otherwise append a fresh entry.  This is the
insertion-ordered dictionary a grouping pass accumulates into. -/
def addHours (k : GroupKey) (h : ℚ) :
    List (GroupKey × ℚ) → List (GroupKey × ℚ)
  | [] => [(k, h)]
  | (k', s) :: rest =>
    if k' = k then (k', s + h) :: rest else (k', s) :: addHours k h rest

/-- Modelled from the spec: the grouping/aggregation pass of the missing
`build_billable_hours_report` (spec §4.2) — fold the record stream into
per-key hour totals. -/
def groupTotals (rs : List Actual) : List (GroupKey × ℚ) :=
  rs.foldl (fun acc r => addHours (keyOf r) (hoursOf r) acc) []

/-- A Billable-Hours Row (spec §3). -/
structure BillRow where
  project_id : Int
  person_id : Int
  month : String
  billable_hours : ℚ
deriving DecidableEq, Repr

/-- Render one accumulated `(key, total)` entry as a Billable-Hours Row. -/
def rowOfKV (kv : GroupKey × ℚ) : BillRow :=
  ⟨kv.1.project_id, kv.1.person_id, monthStr kv.1.year kv.1.month, kv.2⟩

/-- Modelled from the spec: the missing `build_billable_hours_report`
(spec §4.2) over an actuals stream — filter by the date window, group by
`(project_id, person_id, year-month)`, sum billable hours per group, one row
per key. -/
def build_billable_hours_report (rs : List Actual)
    (start stop : Option PyDate) : List BillRow :=
  (groupTotals (rs.filter fun r => inWindow start stop r.date)).map rowOfKV

/-- The three-record fixture of spec §8: project 1, person 10, 3h on
2024-01-05, 2h on 2024-01-20, 5h on 2024-02-01. -/
def fixtureActuals : List Actual :=
  [⟨1, 10, ⟨2024, 1, 5⟩, some 3⟩,
   ⟨1, 10, ⟨2024, 1, 20⟩, some 2⟩,
   ⟨1, 10, ⟨2024, 2, 1⟩, some 5⟩]

/-! ## The `billable_hours` tool -/

/-- Python truthiness of an `Optional[int]`: `None` and `0` are falsy. -/
def pyTruthyInt : Option Int → Bool
  | none => false
  | some n => !(n == 0)

/-- The `matches` predicate inside `billable_hours` (mcp_runn_server.py
lines 99-104): a row is dropped when a truthy `project_id` argument differs
from the row's project id, or a truthy `person_id` argument differs from the
row's person id. -/
def rowMatches (project_id person_id : Option Int) (row : BillRow) : Bool :=
  if pyTruthyInt project_id && !(some row.project_id == project_id) then false
  else if pyTruthyInt person_id && !(some row.person_id == person_id) then false
  else true

/-- `billable_hours` (mcp_runn_server.py lines 88-106), network aside: build
the report over the client's actuals, then keep the rows that `matches`
accepts.  The date arguments are already-parsed dates (see the section
comment on `parse_date`). -/
def billableHours (actuals : List Actual) (start stop : Option PyDate)
    (project_id person_id : Option Int) : List BillRow :=
  (build_billable_hours_report actuals start stop).filter
    (rowMatches project_id person_id)

/-! ## The `list_people` tool -/

/-- Python's `str.strip()` on a character list: drop leading whitespace,
then drop trailing whitespace (via reverse). -/
def stripChars (l : List Char) : List Char :=
  ((l.dropWhile Char.isWhitespace).reverse.dropWhile Char.isWhitespace).reverse

/-- Python's `str.strip()`. -/
def pyStrip (s : String) : String := ⟨stripChars s.data⟩

/-- A raw person record, as far as `list_people` reads it: `id`, optional
`firstName`, `lastName` and `email` fields (`p.get(...)` treats a missing
field as absent). -/
structure RawPerson where
  id : Int
  firstName : Option String
  lastName : Option String
  email : Option String
deriving DecidableEq, Repr

/-- The default projection of `list_people` (mcp_runn_server.py line 82):
`{"id": p["id"],
  "name": f"{p.get('firstName', '')} {p.get('lastName', '')}".strip(),
  "email": p.get("email")}`. -/
structure PersonOut where
  id : Int
  name : String
  email : Option String
deriving DecidableEq, Repr

/-- The projection applied to one raw person record
(mcp_runn_server.py line 82). -/
def projectPerson (p : RawPerson) : PersonOut :=
  { id := p.id
    name := pyStrip ((p.firstName.getD "") ++ " " ++ (p.lastName.getD ""))
    email := p.email }

/-- An upstream list response, as `list_people` inspects it
(mcp_runn_server.py line 79): either a bare sequence (a JSON array) or an
object whose optional `"values"` field holds the sequence. -/
inductive ListResp (β : Type u) where
  | arr (items : List β)
  | obj (values : Option (List β))
deriving DecidableEq, Repr

/-- The fake upstream a `list_people` invocation runs against: the pages its
`paginate` would serve, and the response of a single `GET /people`. -/
structure PeopleUpstream where
  pages : List (List RawPerson)
  singleResp : ListResp RawPerson

/-- The possible return shapes of `list_people` (the Python function returns
heterogeneous objects depending on `full`/`paginate`). -/
inductive PeopleOut where
  | raw (resp : ListResp RawPerson)
  | rawList (items : List RawPerson)
  | projected (items : List PersonOut)
deriving DecidableEq, Repr

/-- `list_people` (mcp_runn_server.py lines 61-84): resolve the client; with
`full` return the raw page stream or raw response; otherwise obtain the raw
person sequence (paginated, or `resp.get("values", [])` when the one-shot
response is a dict, or the bare response itself) and apply the projection. -/
def list_people (full paginate : Bool) (limit : Nat)
    (api_key env : Option String) (up : PeopleUpstream) :
    List NetCall × Except RunnError PeopleOut :=
  match get_client api_key env with
  | .error e => ([], .error e)
  | .ok _ =>
    if full then
      if paginate then
        let r := paginatePages "/people" limit up.pages
        (r.1, .ok (.rawList r.2))
      else ([⟨"GET", "/people"⟩], .ok (.raw up.singleResp))
    else
      let r : List NetCall × List RawPerson :=
        if paginate then paginatePages "/people" limit up.pages
        else
          ([⟨"GET", "/people"⟩],
           match up.singleResp with
           | .arr items => items
           | .obj values => values.getD [])
      (r.1, .ok (.projected (r.2.map projectPerson)))

/-! ## The `list_projects` tool -/

/-- Insert a binding into an insertion-ordered dictionary: overwrite the
value of an existing key, else append the binding. -/
def dictInsert (k : Int) (v : String) :
    List (Int × String) → List (Int × String)
  | [] => [(k, v)]
  | (k', v') :: rest =>
    if k' = k then (k', v) :: rest else (k', v') :: dictInsert k v rest

/-- Modelled from the spec: the missing `RunnClient.projects_lookup`
(spec §4.1) — fetch all project records and build an id → name lookup
table (a dictionary, so one binding per id, last fetched name wins). -/
def projects_lookup (recs : List (Int × String)) : List (Int × String) :=
  recs.foldl (fun d kv => dictInsert kv.1 kv.2 d) []

/-- Order of `sorted(client.projects_lookup().items())`
(mcp_runn_server.py line 57) restricted to the id component: dictionary keys
are unique, so Python's lexicographic tuple order never reaches the name
tiebreak and the sort is by ascending id. -/
def pairLe (a b : Int × String) : Prop := a.1 ≤ b.1

instance : DecidableRel pairLe := fun a b => inferInstanceAs (Decidable (a.1 ≤ b.1))

instance : IsTotal (Int × String) pairLe := ⟨fun a b => Int.le_total a.1 b.1⟩

instance : IsTrans (Int × String) pairLe := ⟨fun _ _ _ h h' => le_trans h h'⟩

/-- The fake upstream a `list_projects` invocation runs against: the raw
project records `projects_lookup` would fetch. -/
structure ProjUpstream where
  recs : List (Int × String)

/-- `list_projects` (mcp_runn_server.py lines 54-57): resolve the client and
return `sorted(client.projects_lookup().items())` as `(id, name)` pairs.
The lookup fetch is one bulk `GET /projects` (spec §4.1). -/
def list_projects (api_key env : Option String) (up : ProjUpstream) :
    List NetCall × Except RunnError (List (Int × String)) :=
  match get_client api_key env with
  | .error e => ([], .error e)
  | .ok _ =>
    ([⟨"GET", "/projects"⟩],
     .ok (List.insertionSort pairLe (projects_lookup up.recs)))

/-! ## The raw collection tools and `runn_request` -/

/-- The fake upstream a raw-collection or escape-hatch invocation runs
against: the pages `paginate` would serve at the requested path, and the
response of a one-shot `request`. -/
structure Upstream (β : Type u) where
  pages : List (List β)
  single : β

/-- Return shape of a raw-collection tool or of `runn_request`: the
materialized page stream, or the one-shot response. -/
inductive ReqOut (β : Type u) where
  | paged (items : List β)
  | single (resp : β)
deriving DecidableEq, Repr

/-- The common body of `list_clients`, `list_assignments`, `list_actuals`,
`list_roles`, `list_skills`, `list_teams` and `list_rate_cards`
(mcp_runn_server.py lines 110-204), which differ only in the path
(`"/clients"`, `"/assignments"`, `"/actuals"`, `"/roles"`, `"/skills"`,
`"/teams"`, `"/rate-cards"`): resolve the client, then either materialize the
paginated stream or make one `GET` request. -/
def list_collection {β : Type u} (path : String) (paginate : Bool)
    (limit : Nat) (api_key env : Option String) (up : Upstream β) :
    List NetCall × Except RunnError (ReqOut β) :=
  match get_client api_key env with
  | .error e => ([], .error e)
  | .ok _ =>
    if paginate then
      let r := paginatePages path limit up.pages
      (r.1, .ok (.paged r.2))
    else ([⟨"GET", path⟩], .ok (.single up.single))

/-- Python's `str.upper()`, character by character (the ASCII case is all a
method name needs). -/
def pyUpper (s : String) : String := ⟨s.data.map Char.toUpper⟩

/-- `runn_request` (mcp_runn_server.py lines 208-223): resolve the client;
with `paginate` require `method.upper() == "GET"` (else `ValueError`, spec's
`ValidationError`) and materialize the paginated stream; otherwise make the
one-shot request with the given method. -/
def runn_request {β : Type u} (method path : String) (paginate : Bool)
    (limit : Nat) (api_key env : Option String) (up : Upstream β) :
    List NetCall × Except RunnError (ReqOut β) :=
  match get_client api_key env with
  | .error e => ([], .error e)
  | .ok _ =>
    if paginate then
      if pyUpper method ≠ "GET" then
        ([], .error (.validationError "paginate=True only supports GET requests."))
      else
        let r := paginatePages path limit up.pages
        (r.1, .ok (.paged r.2))
    else ([⟨method, path⟩], .ok (.single up.single))

/-- The fake upstream a `billable_hours` invocation runs against: the actuals
stream the report builder pages through. -/
structure ActualsUpstream where
  actuals : List Actual

/-- `billable_hours` as a traced tool (mcp_runn_server.py lines 88-106):
resolve the client, run the report builder, post-filter with `matches`.
The report builder's network activity is modelled from the spec (§4.2) as
one paginated pass over `/actuals` at the default page size. -/
def billable_hours_tool (start stop : Option PyDate)
    (project_id person_id : Option Int) (api_key env : Option String)
    (up : ActualsUpstream) : List NetCall × Except RunnError (List BillRow) :=
  match get_client api_key env with
  | .error e => ([], .error e)
  | .ok _ =>
    ((paginatePages "/actuals" 200 (chunks 200 up.actuals)).1,
     .ok (billableHours up.actuals start stop project_id person_id))

/-! ## Grouping lemmas -/

/-- The total recorded under key `k'` in the running totals (zero when the
key is absent). -/
def getQ : List (GroupKey × ℚ) → GroupKey → ℚ
  | [], _ => 0
  | (k, v) :: t, k' => if k = k' then v else getQ t k'

/-- Total billable hours of the records of a stream whose grouping key
is `k`. -/
def sumHours (k : GroupKey) (rs : List Actual) : ℚ :=
  ((rs.filter fun r => keyOf r = k).map hoursOf).sum

theorem sumHours_nil (k : GroupKey) : sumHours k [] = 0 := rfl

theorem sumHours_cons (k : GroupKey) (r : Actual) (t : List Actual) :
    sumHours k (r :: t) =
      (if keyOf r = k then hoursOf r else 0) + sumHours k t := by
  by_cases hk : keyOf r = k <;> simp [sumHours, List.filter_cons, hk]

theorem getQ_addHours_self (k : GroupKey) (h : ℚ)
    (acc : List (GroupKey × ℚ)) :
    getQ (addHours k h acc) k = getQ acc k + h := by
  induction acc with
  | nil => simp [addHours, getQ]
  | cons kv t ih =>
    obtain ⟨k₁, v⟩ := kv
    by_cases hk : k₁ = k
    · subst hk
      simp [addHours, getQ]
    · simp [addHours, getQ, hk, ih]

theorem getQ_addHours_ne (k : GroupKey) (h : ℚ) (k' : GroupKey)
    (acc : List (GroupKey × ℚ)) (hne : k' ≠ k) :
    getQ (addHours k h acc) k' = getQ acc k' := by
  induction acc with
  | nil => simp [addHours, getQ, Ne.symm hne]
  | cons kv t ih =>
    obtain ⟨k₁, v⟩ := kv
    by_cases hk : k₁ = k
    · subst hk
      simp [addHours, getQ, Ne.symm hne]
    · simp [addHours, getQ, hk, ih]

theorem mem_keys_addHours (k : GroupKey) (h : ℚ) (k' : GroupKey)
    (acc : List (GroupKey × ℚ)) :
    k' ∈ (addHours k h acc).map Prod.fst ↔
      k' = k ∨ k' ∈ acc.map Prod.fst := by
  induction acc with
  | nil => simp [addHours]
  | cons kv t ih =>
    obtain ⟨k₁, v⟩ := kv
    by_cases hk : k₁ = k
    · have hstep : addHours k h ((k₁, v) :: t) = (k₁, v + h) :: t := by
        simp [addHours, hk]
      rw [hstep, List.map_cons, List.mem_cons, List.map_cons, List.mem_cons,
        hk]
      tauto
    · have hstep : addHours k h ((k₁, v) :: t) = (k₁, v) :: addHours k h t := by
        simp [addHours, hk]
      rw [hstep, List.map_cons, List.mem_cons, List.map_cons, List.mem_cons,
        ih]
      tauto

theorem nodup_keys_addHours (k : GroupKey) (h : ℚ)
    (acc : List (GroupKey × ℚ))
    (hnd : (acc.map Prod.fst).Nodup) :
    ((addHours k h acc).map Prod.fst).Nodup := by
  induction acc with
  | nil => simp [addHours]
  | cons kv t ih =>
    obtain ⟨k₁, v⟩ := kv
    rw [List.map_cons, List.nodup_cons] at hnd
    by_cases hk : k₁ = k
    · have hstep : addHours k h ((k₁, v) :: t) = (k₁, v + h) :: t := by
        simp [addHours, hk]
      rw [hstep, List.map_cons, List.nodup_cons]
      exact hnd
    · simp only [addHours, if_neg hk, List.map_cons, List.nodup_cons]
      refine ⟨fun hmem => ?_, ih hnd.2⟩
      rcases (mem_keys_addHours k h k₁ t).mp hmem with h1 | h1
      · exact hk h1
      · exact hnd.1 h1

theorem getQ_foldl (rs : List Actual) :
    ∀ (acc : List (GroupKey × ℚ)) (k : GroupKey),
      getQ (rs.foldl (fun a r => addHours (keyOf r) (hoursOf r) a) acc) k =
        getQ acc k + sumHours k rs := by
  induction rs with
  | nil => intro acc k; simp [sumHours]
  | cons r t ih =>
    intro acc k
    rw [List.foldl_cons, ih, sumHours_cons]
    by_cases hk : keyOf r = k
    · subst hk
      rw [getQ_addHours_self, if_pos rfl, add_assoc]
    · rw [getQ_addHours_ne _ _ _ _ (fun he => hk he.symm), if_neg hk, zero_add]

theorem mem_keys_foldl (rs : List Actual) :
    ∀ (acc : List (GroupKey × ℚ)) (k : GroupKey),
      k ∈ (rs.foldl (fun a r => addHours (keyOf r) (hoursOf r) a) acc).map
            Prod.fst ↔
        k ∈ acc.map Prod.fst ∨ k ∈ rs.map keyOf := by
  induction rs with
  | nil => simp
  | cons r t ih =>
    intro acc k
    rw [List.foldl_cons, ih, mem_keys_addHours, List.map_cons, List.mem_cons]
    tauto

theorem nodup_keys_foldl (rs : List Actual) :
    ∀ (acc : List (GroupKey × ℚ)),
      (acc.map Prod.fst).Nodup →
      ((rs.foldl (fun a r => addHours (keyOf r) (hoursOf r) a) acc).map
          Prod.fst).Nodup := by
  induction rs with
  | nil => intro acc h; simpa using h
  | cons r t ih =>
    intro acc h
    rw [List.foldl_cons]
    exact ih _ (nodup_keys_addHours _ _ _ h)

theorem getQ_of_mem :
    ∀ (acc : List (GroupKey × ℚ)), (acc.map Prod.fst).Nodup →
      ∀ kv ∈ acc, getQ acc kv.1 = kv.2 := by
  intro acc
  induction acc with
  | nil => simp
  | cons kv₀ t ih =>
    intro hnd kv hmem
    obtain ⟨k₀, v₀⟩ := kv₀
    rw [List.map_cons, List.nodup_cons] at hnd
    rcases List.mem_cons.mp hmem with h1 | h1
    · subst h1; simp [getQ]
    · have hk1 : kv.1 ∈ List.map Prod.fst t := List.mem_map_of_mem Prod.fst h1
      have hne : k₀ ≠ kv.1 := by
        intro he
        rw [he] at hnd
        exact hnd.1 hk1
      rw [getQ, if_neg hne]
      exact ih hnd.2 kv h1

theorem groupTotals_nodup_keys (rs : List Actual) :
    ((groupTotals rs).map Prod.fst).Nodup :=
  nodup_keys_foldl rs [] (by simp)

theorem groupTotals_mem_keys (rs : List Actual) (k : GroupKey) :
    k ∈ (groupTotals rs).map Prod.fst ↔ k ∈ rs.map keyOf := by
  rw [groupTotals, mem_keys_foldl]
  simp

theorem groupTotals_sums (rs : List Actual) :
    ∀ kv ∈ groupTotals rs, kv.2 = sumHours kv.1 rs := by
  intro kv hmem
  have h1 := getQ_of_mem (groupTotals rs) (groupTotals_nodup_keys rs) kv hmem
  have h2 := getQ_foldl rs [] kv.1
  rw [groupTotals] at h1
  rw [h2] at h1
  simpa [getQ] using h1.symm

/-- The fixture report of spec §8: two rows, January totalling 5 hours and
February totalling 5 hours. -/
theorem fixture_report :
    build_billable_hours_report fixtureActuals none none =
      [⟨1, 10, "2024-01", 5⟩, ⟨1, 10, "2024-02", 5⟩] := by
  simp [build_billable_hours_report, fixtureActuals, groupTotals, addHours,
    keyOf, hoursOf, inWindow, rowOfKV, monthStr, pad2]
  norm_num
  exact ⟨rfl, rfl⟩

/-- C1: for every actuals stream, `build_billable_hours_report` (no date
filter) groups records by `(project_id, person_id, year-month)` and sums the
billable-hours field within each group — its rows are the accumulated
`(key, total)` entries, with exactly one entry per distinct key occurring in
the stream, each total being the sum of the hours of the records sharing the
key; on the three-record fixture it yields exactly the two rows
`(1, 10, "2024-01", 5)` and `(1, 10, "2024-02", 5)`. -/
theorem report_groups_by_key_and_sums (rs : List Actual) :
    (((groupTotals rs).map Prod.fst).Nodup
      ∧ (∀ k, k ∈ (groupTotals rs).map Prod.fst ↔ k ∈ rs.map keyOf)
      ∧ (∀ kv ∈ groupTotals rs, kv.2 = sumHours kv.1 rs)
      ∧ build_billable_hours_report rs none none = (groupTotals rs).map rowOfKV)
    ∧ build_billable_hours_report fixtureActuals none none =
        [⟨1, 10, "2024-01", 5⟩, ⟨1, 10, "2024-02", 5⟩] := by
  refine ⟨⟨groupTotals_nodup_keys rs, fun k => groupTotals_mem_keys rs k,
    groupTotals_sums rs, ?_⟩, fixture_report⟩
  simp [build_billable_hours_report, inWindow]

/-- Witness for C1: the theorem applied to the fixture stream shows the
January key is among the report's grouping keys. -/
theorem report_groups_by_key_and_sums_witness :
    (⟨1, 10, 2024, 1⟩ : GroupKey) ∈ (groupTotals fixtureActuals).map Prod.fst :=
  ((report_groups_by_key_and_sums fixtureActuals).1.2.1 ⟨1, 10, 2024, 1⟩).mpr
    (by decide)

/-! ## Pagination lemmas -/

theorem paginatePages_short {β : Type u} (path : String) (limit : Nat)
    (p : List β) (ps : List (List β))
    (hp : p.length < limit ∨ p.length = 0) :
    paginatePages path limit (p :: ps) = ([⟨"GET", path⟩], p) := by
  have hcond : (p.length < limit || p.length == 0) = true := by
    rcases hp with h | h <;> simp [h]
  simp [paginatePages, hcond]

theorem paginatePages_chunks {β : Type u} (path : String) (limit : Nat)
    (hl : 0 < limit) :
    ∀ (n : Nat) (data : List β), data.length ≤ n →
      (paginatePages path limit (chunks limit data)).2 = data := by
  intro n
  induction n with
  | zero =>
    intro data hd
    have hnil : data = [] := List.eq_nil_of_length_eq_zero (Nat.le_zero.mp hd)
    subst hnil
    simp [chunks, paginatePages]
  | succ n ih =>
    intro data hd
    match data with
    | [] => simp [chunks, paginatePages]
    | x :: xs =>
      rw [chunks, if_neg (Nat.pos_iff_ne_zero.mp hl)]
      by_cases hlen : (x :: xs).length < limit
      · have htake : (x :: xs).take limit = x :: xs :=
          List.take_of_length_le (le_of_lt hlen)
        rw [htake, paginatePages_short path limit _ _ (Or.inl hlen)]
      · have hlim : limit ≤ (x :: xs).length := le_of_not_lt hlen
        have htl : ((x :: xs).take limit).length = limit := by
          rw [List.length_take]
          omega
        have hcond : (((x :: xs).take limit).length < limit
            || ((x :: xs).take limit).length == 0) = false := by
          rw [htl]
          simp
          omega
        rw [paginatePages]
        rw [if_neg (by rw [hcond]; exact Bool.false_ne_true)]
        have hdrop : ((x :: xs).drop limit).length ≤ n := by
          rw [List.length_drop]
          simp only [List.length_cons] at hd ⊢
          omega
        simp only []
        rw [ih ((x :: xs).drop limit) hdrop]
        exact List.take_append_drop limit (x :: xs)

/-- C2: for every positive page size and every fake upstream serving the
fixed offset-partition pages of a record stream, `paginate` yields exactly
the concatenation of the pages in fetch order — the full stream, with no
gaps and no duplicates — and iteration terminates at the first page with
fewer than `limit` records or zero records, yielding that page's records and
ignoring anything after it. -/
theorem paginate_concatenates_pages {β : Type u} (path : String)
    (limit : Nat) (data : List β) (p : List β) (ps : List (List β))
    (hl : 0 < limit) (hp : p.length < limit ∨ p.length = 0) :
    (paginatePages path limit (chunks limit data)).2 = data
    ∧ (paginatePages path limit (p :: ps)).2 = p := by
  constructor
  · exact paginatePages_chunks path limit hl data.length data le_rfl
  · rw [paginatePages_short path limit p ps hp]

/-- Witness for C2: pages of size 2 over a five-record stream, and early
termination on a short first page. -/
theorem paginate_concatenates_pages_witness :
    0 < 2 ∧ ([1].length < 2 ∨ [1].length = 0)
    ∧ (paginatePages "/actuals" 2 (chunks 2 [10, 20, 30, 40, 50])).2 =
        [10, 20, 30, 40, 50]
    ∧ (paginatePages "/actuals" 2 [[1], [7, 8], [9, 9]]).2 = [1] := by
  have h := paginate_concatenates_pages "/actuals" 2 [10, 20, 30, 40, 50]
    [1] [[7, 8], [9, 9]] (by decide) (Or.inl (by decide))
  exact ⟨by decide, Or.inl (by decide), h.1, h.2⟩

/-- C3: with a resolvable credential, every `runn_request` invocation with
`paginate = true` and a method whose uppercasing is not `"GET"` fails with
`ValidationError` and performs no network call; and no invocation with
`paginate = false` or with a `GET` method ever fails with
`ValidationError`. -/
theorem runn_request_paginate_validation {β : Type u} (method path : String)
    (limit : Nat) (api_key env : Option String) (up : Upstream β)
    (c : Client) (hc : get_client api_key env = .ok c) :
    (pyUpper method ≠ "GET" →
      runn_request method path true limit api_key env up =
        ([], .error (.validationError
          "paginate=True only supports GET requests.")))
    ∧ (∀ pg : Bool, pg = false ∨ pyUpper method = "GET" →
        ∀ msg, (runn_request method path pg limit api_key env up).2 ≠
          .error (.validationError msg)) := by
  constructor
  · intro hm
    simp [runn_request, hc, hm]
  · rintro pg (rfl | hm) msg
    · simp [runn_request, hc]
    · cases pg with
      | false => simp [runn_request, hc]
      | true => simp [runn_request, hc, hm]

/-- Witness for C3: a paginated `POST` fails with the validation error and an
empty trace; a paginated `get` (uppercased to `GET`) does not. -/
theorem runn_request_paginate_validation_witness :
    get_client (some "k") none = .ok ⟨"k"⟩
    ∧ pyUpper "POST" ≠ "GET"
    ∧ runn_request "POST" "/people" true 200 (some "k") none
        (⟨[], 0⟩ : Upstream Nat) =
        ([], .error (.validationError
          "paginate=True only supports GET requests."))
    ∧ ∀ msg, (runn_request "get" "/people" true 200 (some "k") none
        (⟨[], 0⟩ : Upstream Nat)).2 ≠ .error (.validationError msg) := by
  have h1 := (runn_request_paginate_validation "POST" "/people" 200
    (some "k") none (⟨[], 0⟩ : Upstream Nat) ⟨"k"⟩ (by rfl)).1 (by decide)
  have h2 := (runn_request_paginate_validation "get" "/people" 200
    (some "k") none (⟨[], 0⟩ : Upstream Nat) ⟨"k"⟩ (by rfl)).2 true
    (Or.inr (by decide))
  exact ⟨by rfl, by decide, h1, h2⟩

/-- C4: every tool invocation resolves the credential from the explicit
`api_key` argument (when it yields a credential), falls back to the
environment value when the argument is absent, and — when neither yields a
credential — fails with `AuthenticationError` with an empty network trace,
for each of the modelled tools. -/
theorem credential_resolution (api_key env : Option String) :
    (∀ s, api_key = some s → s ≠ "" → get_client api_key env = .ok ⟨s⟩)
    ∧ (∀ e, api_key = none → env = some e → e ≠ "" →
        get_client api_key env = .ok ⟨e⟩)
    ∧ (pyOrStr api_key env = none ∨ pyOrStr api_key env = some "" →
        get_client api_key env = .error .authenticationError)
    ∧ (get_client api_key env = .error .authenticationError →
        (∀ up, list_projects api_key env up =
          ([], .error .authenticationError))
        ∧ (∀ full pg limit up, list_people full pg limit api_key env up =
          ([], .error .authenticationError))
        ∧ (∀ s e pid per up,
            billable_hours_tool s e pid per api_key env up =
              ([], .error .authenticationError))
        ∧ (∀ (β : Type) path pg limit (up : Upstream β),
            list_collection path pg limit api_key env up =
              ([], .error .authenticationError))
        ∧ (∀ (β : Type) method path pg limit (up : Upstream β),
            runn_request method path pg limit api_key env up =
              ([], .error .authenticationError))) := by
  refine ⟨?_, ?_, ?_, ?_⟩
  · intro s hs hne
    subst hs
    simp [get_client, pyOrStr, hne]
  · intro e ha he hne
    subst ha
    subst he
    simp [get_client, pyOrStr, hne]
  · intro h
    rcases h with h | h <;> (rw [get_client, h]; try simp)
  · intro h
    refine ⟨fun up => ?_, fun full pg limit up => ?_,
      fun s e pid per up => ?_, fun β path pg limit up => ?_,
      fun β method path pg limit up => ?_⟩ <;>
      simp [list_projects, list_people, billable_hours_tool,
        list_collection, runn_request, h]

/-- Witness for C4: with no argument and no environment value, `get_client`
fails and `list_projects` performs no network call. -/
theorem credential_resolution_witness :
    get_client none none = .error .authenticationError
    ∧ list_projects none none ⟨[]⟩ = ([], .error .authenticationError)
    ∧ get_client (some "k") (some "other") = .ok ⟨"k"⟩ := by
  have h1 := (credential_resolution none none).2.2.1 (Or.inl rfl)
  have h2 := ((credential_resolution none none).2.2.2 h1).1 ⟨[]⟩
  have h3 := (credential_resolution (some "k") (some "other")).1 "k" rfl
    (by decide)
  exact ⟨h1, h2, h3⟩

/-! ## Lemmas about the `billable_hours` post-filter -/

theorem rowMatches_eq (pid per : Option Int) (hp : pid ≠ some 0)
    (hq : per ≠ some 0) (row : BillRow) :
    rowMatches pid per row =
      (pid.all (fun p => row.project_id == p)
        && per.all (fun q => row.person_id == q)) := by
  cases pid with
  | none =>
    cases per with
    | none => simp [rowMatches, pyTruthyInt]
    | some q =>
      have hq0 : q ≠ 0 := fun h => hq (by rw [h])
      by_cases hrq : row.person_id = q <;>
        simp [rowMatches, pyTruthyInt, hq0, hrq]
  | some p =>
    have hp0 : p ≠ 0 := fun h => hp (by rw [h])
    cases per with
    | none =>
      by_cases hrp : row.project_id = p <;>
        simp [rowMatches, pyTruthyInt, hp0, hrp]
    | some q =>
      have hq0 : q ≠ 0 := fun h => hq (by rw [h])
      by_cases hrp : row.project_id = p <;>
        by_cases hrq : row.person_id = q <;>
          simp [rowMatches, pyTruthyInt, hp0, hq0, hrp, hrq]

theorem rowMatches_none_none (row : BillRow) :
    rowMatches none none row = true := by
  simp [rowMatches, pyTruthyInt]

/-- C5 counterexample: on a one-record stream for project 5, calling
`billable_hours` with `project_id = 0` does not return "exactly the rows
whose project id equals the given argument" — the project-5 row comes back
even though its id differs from the given 0. -/
theorem billable_hours_zero_id_counterexample :
    billableHours [⟨5, 7, ⟨2024, 1, 2⟩, some 1⟩] none none (some 0) none ≠
      (build_billable_hours_report [⟨5, 7, ⟨2024, 1, 2⟩, some 1⟩] none
        none).filter (fun r => r.project_id == 0) := by
  simp [billableHours, build_billable_hours_report, groupTotals, addHours,
    keyOf, hoursOf, inWindow, rowOfKV, rowMatches, pyTruthyInt]

/-- C5 (amended): for every actuals stream, `billable_hours` returns exactly
the report rows whose project id equals the `project_id` argument (when given
and nonzero) and whose person id equals the `person_id` argument (when given
and nonzero); with neither given all rows are returned; and on the
three-record fixture, `project_id = 1, person_id = 99` returns the empty
sequence. -/
theorem billable_hours_id_filter (actuals : List Actual)
    (s e : Option PyDate) (pid per : Option Int)
    (hp : pid ≠ some 0) (hq : per ≠ some 0) :
    billableHours actuals s e pid per =
      (build_billable_hours_report actuals s e).filter
        (fun r => pid.all (fun p => r.project_id == p)
          && per.all (fun q => r.person_id == q))
    ∧ billableHours actuals s e none none =
        build_billable_hours_report actuals s e
    ∧ billableHours fixtureActuals none none (some 1) (some 99) = [] := by
  refine ⟨?_, ?_, ?_⟩
  · rw [billableHours]
    exact List.filter_congr (fun row _ => rowMatches_eq pid per hp hq row)
  · rw [billableHours]
    have h : ∀ row ∈ build_billable_hours_report actuals s e,
        rowMatches none none row = true :=
      fun row _ => rowMatches_none_none row
    rw [List.filter_congr h, List.filter_true]
  · rw [billableHours, fixture_report]
    decide

/-- Witness for C5: the amended filter applied on the fixture with
`project_id = 1, person_id = 99` yields the empty sequence. -/
theorem billable_hours_id_filter_witness :
    (some 1 : Option Int) ≠ some 0 ∧ (some 99 : Option Int) ≠ some 0
    ∧ billableHours fixtureActuals none none (some 1) (some 99) = [] :=
  ⟨by decide, by decide,
    (billable_hours_id_filter fixtureActuals none none (some 1) (some 99)
      (by decide) (by decide)).2.2⟩

/-- C8: passing `project_id = 0` or `person_id = 0` to `billable_hours`
disables the corresponding id filter entirely — the call behaves exactly as
if the argument had been absent, so rows with any id are returned. -/
theorem billable_hours_zero_is_absent (actuals : List Actual)
    (s e : Option PyDate) (pid per : Option Int) :
    billableHours actuals s e (some 0) per =
      billableHours actuals s e none per
    ∧ billableHours actuals s e pid (some 0) =
        billableHours actuals s e pid none := by
  constructor
  · rw [billableHours, billableHours]
    refine List.filter_congr (fun row _ => ?_)
    simp [rowMatches, pyTruthyInt]
  · rw [billableHours, billableHours]
    refine List.filter_congr (fun row _ => ?_)
    simp [rowMatches, pyTruthyInt]

/-- C9: an explicit empty-string `api_key` falls back to the environment
value exactly as if no argument had been passed, while a non-empty explicit
`api_key` is used as the credential and the environment value is never
consulted. -/
theorem empty_api_key_falls_back (env env' : Option String) (s : String)
    (hs : s ≠ "") :
    get_client (some "") env = get_client none env
    ∧ get_client (some s) env = get_client (some s) env'
    ∧ get_client (some s) env = .ok ⟨s⟩ := by
  refine ⟨?_, ?_, ?_⟩
  · simp [get_client, pyOrStr]
  · simp [get_client, pyOrStr, hs]
  · simp [get_client, pyOrStr, hs]

/-- Witness for C9: the fallback at `api_key = ""` and the env-independence
at `api_key = "a"`, on concrete environments. -/
theorem empty_api_key_falls_back_witness :
    ("a" : String) ≠ ""
    ∧ get_client (some "") (some "k") = get_client none (some "k")
    ∧ get_client (some "a") (some "k") = get_client (some "a") none
    ∧ get_client (some "a") (some "k") = .ok ⟨"a"⟩ := by
  have h := empty_api_key_falls_back (some "k") none "a" (by decide)
  exact ⟨by decide, (empty_api_key_falls_back (some "k") none "a"
    (by decide)).1, h.2.1, h.2.2⟩

/-- C10: with `full = false` and `paginate = false`, a dict response without
a `"values"` field makes `list_people` project the empty sequence (returning
the empty list, not an error), while a bare-sequence response is projected
directly. -/
theorem list_people_response_shapes (limit : Nat)
    (api_key env : Option String) (c : Client)
    (hc : get_client api_key env = .ok c)
    (pages : List (List RawPerson)) :
    (list_people false false limit api_key env ⟨pages, .obj none⟩ =
      ([⟨"GET", "/people"⟩], .ok (.projected [])))
    ∧ (∀ items, list_people false false limit api_key env
        ⟨pages, .arr items⟩ =
        ([⟨"GET", "/people"⟩], .ok (.projected (items.map projectPerson)))) := by
  constructor
  · simp [list_people, hc]
  · intro items
    simp [list_people, hc]

/-- Witness for C10: a concrete credential, a `values`-less dict response
and a two-record bare response. -/
theorem list_people_response_shapes_witness :
    get_client (some "k") none = .ok ⟨"k"⟩
    ∧ list_people false false 200 (some "k") none ⟨[], .obj none⟩ =
        ([⟨"GET", "/people"⟩], .ok (.projected []))
    ∧ list_people false false 200 (some "k") none
        ⟨[], .arr [⟨1, some "Ann", some "Lee", some "a@x"⟩]⟩ =
        ([⟨"GET", "/people"⟩], .ok (.projected
          ([⟨1, some "Ann", some "Lee", some "a@x"⟩].map projectPerson))) := by
  have h := list_people_response_shapes 200 (some "k") none ⟨"k"⟩ rfl []
  exact ⟨rfl, h.1, h.2 [⟨1, some "Ann", some "Lee", some "a@x"⟩]⟩

/-! ## String-strip lemmas for the people projection -/

/-- Whether a character list starts with whitespace. -/
def headIsWs : List Char → Bool
  | [] => false
  | c :: _ => c.isWhitespace

/-- A string with no leading and no trailing whitespace. -/
def noEdgeWs (s : String) : Bool :=
  !headIsWs s.data && !headIsWs s.data.reverse

theorem noEdgeWs_spec (s : String) (h : noEdgeWs s = true) :
    headIsWs s.data = false ∧ headIsWs s.data.reverse = false := by
  rw [noEdgeWs, Bool.and_eq_true, Bool.not_eq_true', Bool.not_eq_true'] at h
  exact h

theorem data_ne_nil (s : String) (h : s ≠ "") : s.data ≠ [] := by
  intro hd
  exact h (String.ext (hd.trans rfl))

theorem dropWhile_ws_of_head (l : List Char)
    (h : headIsWs l = false) :
    l.dropWhile Char.isWhitespace = l := by
  cases l with
  | nil => rfl
  | cons c t =>
    rw [List.dropWhile_cons]
    rw [headIsWs] at h
    simp [h]

theorem stripChars_of_noEdge (l : List Char) (h1 : headIsWs l = false)
    (h2 : headIsWs l.reverse = false) :
    stripChars l = l := by
  rw [stripChars, dropWhile_ws_of_head l h1, dropWhile_ws_of_head _ h2,
    List.reverse_reverse]

theorem headIsWs_append (l l' : List Char) (hne : l ≠ []) :
    headIsWs (l ++ l') = headIsWs l := by
  cases l with
  | nil => exact absurd rfl hne
  | cons c t => rfl

theorem stripChars_space_cons (l : List Char) (h1 : headIsWs l = false)
    (h2 : headIsWs l.reverse = false) :
    stripChars (' ' :: l) = l := by
  rw [stripChars, List.dropWhile_cons, if_pos (by decide),
    dropWhile_ws_of_head l h1, dropWhile_ws_of_head _ h2,
    List.reverse_reverse]

theorem stripChars_append_space (l : List Char) (h1 : headIsWs l = false)
    (h2 : headIsWs l.reverse = false) :
    stripChars (l ++ [' ']) = l := by
  cases l with
  | nil => decide
  | cons c t =>
    rw [stripChars]
    have hc : headIsWs ((c :: t) ++ [' ']) = false := by
      rw [headIsWs_append _ _ (by simp)]
      exact h1
    rw [dropWhile_ws_of_head _ hc, List.reverse_append]
    have hrev : [' '].reverse ++ (c :: t).reverse =
        ' ' :: (c :: t).reverse := rfl
    rw [hrev, List.dropWhile_cons, if_pos (by decide),
      dropWhile_ws_of_head _ h2, List.reverse_reverse]

theorem stripChars_mid (f l : List Char) (hf : f ≠ []) (hl : l ≠ [])
    (h1 : headIsWs f = false)
    (h3 : headIsWs l.reverse = false) :
    stripChars (f ++ ' ' :: l) = f ++ ' ' :: l := by
  apply stripChars_of_noEdge
  · rw [headIsWs_append _ _ hf]
    exact h1
  · rw [List.reverse_append, List.reverse_cons]
    have hrl : l.reverse ≠ [] := by simpa using hl
    rw [List.append_assoc, headIsWs_append _ _ hrl]
    exact h3

theorem projectPerson_name_data (p : RawPerson) :
    (projectPerson p).name.data =
      stripChars ((p.firstName.getD "").data ++ ' '
        :: (p.lastName.getD "").data) := by
  have hdata : ((p.firstName.getD "") ++ " "
      ++ (p.lastName.getD "")).data =
      (p.firstName.getD "").data ++ ' ' :: (p.lastName.getD "").data := by
    rw [String.data_append, String.data_append, List.append_assoc]
    rfl
  rw [projectPerson]
  show (pyStrip _).data = _
  rw [pyStrip, hdata]

/-- C6: the default `list_people` projection keeps exactly `id` and `email`
and derives `name` by joining `firstName` and `lastName` with one space and
stripping: for records whose name parts carry no edge whitespace, both parts
present give `first ++ " " ++ last`, a single present part gives that part
alone (the padding space is trimmed), and two absent parts give the empty
name. -/
theorem list_people_projection (p : RawPerson) :
    (projectPerson p).id = p.id
    ∧ (projectPerson p).email = p.email
    ∧ (∀ f l, p.firstName = some f → p.lastName = some l →
        f ≠ "" → l ≠ "" → noEdgeWs f = true → noEdgeWs l = true →
        (projectPerson p).name = f ++ " " ++ l)
    ∧ (∀ f, p.firstName = some f → p.lastName = none →
        noEdgeWs f = true → (projectPerson p).name = f)
    ∧ (∀ l, p.firstName = none → p.lastName = some l →
        noEdgeWs l = true → (projectPerson p).name = l)
    ∧ (p.firstName = none → p.lastName = none →
        (projectPerson p).name = "") := by
  refine ⟨rfl, rfl, ?_, ?_, ?_, ?_⟩
  · intro f l hf hl hfne hlne hfw hlw
    apply String.ext
    rw [projectPerson_name_data, hf, hl]
    show stripChars (f.data ++ ' ' :: l.data) = _
    rw [stripChars_mid f.data l.data (data_ne_nil f hfne)
      (data_ne_nil l hlne) (noEdgeWs_spec f hfw).1
      (noEdgeWs_spec l hlw).2]
    rw [String.data_append, String.data_append, List.append_assoc]
    rfl
  · intro f hf hl hfw
    apply String.ext
    rw [projectPerson_name_data, hf, hl]
    show stripChars (f.data ++ ' ' :: ("".data)) = f.data
    show stripChars (f.data ++ [' ']) = f.data
    exact stripChars_append_space f.data (noEdgeWs_spec f hfw).1
      (noEdgeWs_spec f hfw).2
  · intro l hf hl hlw
    apply String.ext
    rw [projectPerson_name_data, hf, hl]
    show stripChars (' ' :: l.data) = l.data
    exact stripChars_space_cons l.data (noEdgeWs_spec l hlw).1
      (noEdgeWs_spec l hlw).2
  · intro hf hl
    apply String.ext
    rw [projectPerson_name_data, hf, hl]
    decide

/-- Witness for C6: the projection of a concrete record with both name
parts present. -/
theorem list_people_projection_witness :
    (projectPerson ⟨3, some "Ann", some "Lee", some "a@x"⟩).id = 3
    ∧ (projectPerson ⟨3, some "Ann", some "Lee", some "a@x"⟩).email =
        some "a@x"
    ∧ (projectPerson ⟨3, some "Ann", some "Lee", some "a@x"⟩).name =
        "Ann" ++ " " ++ "Lee" := by
  have h := list_people_projection ⟨3, some "Ann", some "Lee", some "a@x"⟩
  exact ⟨h.1, h.2.1, h.2.2.1 "Ann" "Lee" rfl rfl (by decide) (by decide)
    (by decide) (by decide)⟩

/-! ## Dictionary and sorting lemmas for `list_projects` -/

theorem mem_keys_dictInsert (k : Int) (v : String) (k' : Int)
    (d : List (Int × String)) :
    k' ∈ (dictInsert k v d).map Prod.fst ↔
      k' = k ∨ k' ∈ d.map Prod.fst := by
  induction d with
  | nil => simp [dictInsert]
  | cons kv t ih =>
    obtain ⟨k₁, v₁⟩ := kv
    by_cases hk : k₁ = k
    · have hstep : dictInsert k v ((k₁, v₁) :: t) = (k₁, v) :: t := by
        simp [dictInsert, hk]
      rw [hstep, List.map_cons, List.mem_cons, List.map_cons, List.mem_cons,
        hk]
      tauto
    · have hstep : dictInsert k v ((k₁, v₁) :: t) =
          (k₁, v₁) :: dictInsert k v t := by
        simp [dictInsert, hk]
      rw [hstep, List.map_cons, List.mem_cons, List.map_cons, List.mem_cons,
        ih]
      tauto

theorem nodup_keys_dictInsert (k : Int) (v : String)
    (d : List (Int × String)) (hnd : (d.map Prod.fst).Nodup) :
    ((dictInsert k v d).map Prod.fst).Nodup := by
  induction d with
  | nil => simp [dictInsert]
  | cons kv t ih =>
    obtain ⟨k₁, v₁⟩ := kv
    rw [List.map_cons, List.nodup_cons] at hnd
    by_cases hk : k₁ = k
    · have hstep : dictInsert k v ((k₁, v₁) :: t) = (k₁, v) :: t := by
        simp [dictInsert, hk]
      rw [hstep, List.map_cons, List.nodup_cons]
      exact hnd
    · have hstep : dictInsert k v ((k₁, v₁) :: t) =
          (k₁, v₁) :: dictInsert k v t := by
        simp [dictInsert, hk]
      rw [hstep, List.map_cons, List.nodup_cons]
      refine ⟨fun hmem => ?_, ih hnd.2⟩
      rcases (mem_keys_dictInsert k v k₁ t).mp hmem with h1 | h1
      · exact hk h1
      · exact hnd.1 h1

theorem projects_lookup_nodup_keys (recs : List (Int × String)) :
    ((projects_lookup recs).map Prod.fst).Nodup := by
  rw [projects_lookup]
  have h : ∀ (d : List (Int × String)), (d.map Prod.fst).Nodup →
      ((recs.foldl (fun d kv => dictInsert kv.1 kv.2 d) d).map
        Prod.fst).Nodup := by
    induction recs with
    | nil => intro d hd; simpa using hd
    | cons kv t ih =>
      intro d hd
      rw [List.foldl_cons]
      exact ih _ (nodup_keys_dictInsert _ _ _ hd)
  exact h [] (by simp)

theorem pairwise_lt_of_le_ne (l : List (Int × String))
    (hle : l.Pairwise pairLe)
    (hne : l.Pairwise (fun a b => a.1 ≠ b.1)) :
    l.Pairwise (fun a b => a.1 < b.1) := by
  induction l with
  | nil => exact List.Pairwise.nil
  | cons x t ih =>
    rw [List.pairwise_cons] at hle hne ⊢
    exact ⟨fun b hb => lt_of_le_of_ne (hle.1 b hb) (hne.1 b hb),
      ih hle.2 hne.2⟩

/-- C7: with a resolvable credential, `list_projects` returns the `(id,
name)` pairs of the projects lookup mapping — the same entries, one per
project id — arranged in strictly ascending id order. -/
theorem list_projects_sorted_pairs (recs : List (Int × String))
    (api_key env : Option String) (c : Client)
    (hc : get_client api_key env = .ok c) :
    ∀ out, (list_projects api_key env ⟨recs⟩).2 = .ok out →
      out.Perm (projects_lookup recs)
      ∧ out.Pairwise (fun a b => a.1 < b.1) := by
  intro out hout
  simp only [list_projects, hc] at hout
  rw [Except.ok.injEq] at hout
  subst hout
  refine ⟨List.perm_insertionSort pairLe _, ?_⟩
  apply pairwise_lt_of_le_ne
  · exact List.sorted_insertionSort pairLe _
  · have hnd := projects_lookup_nodup_keys recs
    have hperm : List.Perm
        ((List.insertionSort pairLe (projects_lookup recs)).map Prod.fst)
        ((projects_lookup recs).map Prod.fst) :=
      (List.perm_insertionSort pairLe _).map Prod.fst
    have hnds : ((List.insertionSort pairLe
        (projects_lookup recs)).map Prod.fst).Nodup :=
      hperm.nodup_iff.mpr hnd
    exact List.pairwise_map.mp hnds

/-- Witness for C7: a two-project upstream served out of order comes back
sorted by id, as a permutation of the lookup. -/
theorem list_projects_sorted_pairs_witness :
    (list_projects (some "k") none ⟨[(2, "b"), (1, "a")]⟩).2 =
      .ok [((1 : Int), "a"), (2, "b")]
    ∧ ([((1 : Int), "a"), (2, "b")]).Perm
        (projects_lookup [(2, "b"), (1, "a")])
    ∧ ([((1 : Int), "a"), (2, "b")]).Pairwise (fun a b => a.1 < b.1) := by
  have h := list_projects_sorted_pairs [(2, "b"), (1, "a")] (some "k") none
    ⟨"k"⟩ rfl [((1 : Int), "a"), (2, "b")] rfl
  exact ⟨rfl, h.1, h.2⟩

end RunnMCP
